import Mathlib

/-
Verification of the peak-alignment core of usgdp_npp_bokeh.py
(function get_usgdp_data and the summary-range portion of usgdp_npp).

The embedding models:
  * dates as (year, month, day) triples of integers, ordered
    chronologically (lexicographically), as pandas datetime comparison does;
  * the GDPC1 series as a list of observations (date, rational value);
  * the peak search of lines 210-222: peak_val is the maximum value whose
    date lies in the closed window, peak_date the maximum (latest) date in
    the window attaining that value;
  * the quarter-offset column of lines 223-226:
    (year - peak_year) * 4 + (month - peak_month) / 3, as a rational;
  * the per-recession left merge of lines 234-242 onto the integer axis
    np.arange(-bkwd_qtrs_max, frwd_qtrs_max + 1), pandas left-join
    semantics: every left row kept, each matching right row duplicates the
    left row, no match yields a null entry;
  * the hardcoded 15-window recession catalog maxdate_rng_lst;
  * the error behaviour: when a window holds no observation, peak_val is
    NaN, the date filter GDPC1 == NaN is empty, peak_date is NaT, and
    peak_date.strftime raises an untyped ValueError, aborting the run.
-/

structure Date where
  year : Int
  month : Int
  day : Int
deriving DecidableEq

/-- Chronological order on calendar dates: lexicographic on
(year, month, day), which is what pandas datetime comparison computes. -/
def dateLeP (a b : Date) : Prop :=
  a.year < b.year ∨ (a.year = b.year ∧
    (a.month < b.month ∨ (a.month = b.month ∧ a.day ≤ b.day)))

instance (a b : Date) : Decidable (dateLeP a b) := by
  unfold dateLeP; infer_instance

def dateLe (a b : Date) : Bool := decide (dateLeP a b)

/-- Strict chronological order. -/
def dateLt (a b : Date) : Bool := !(dateLe b a)

theorem dateLe_iff (a b : Date) : dateLe a b = true ↔ dateLeP a b := by
  simp [dateLe]

theorem dateLe_refl (a : Date) : dateLe a a = true := by
  rw [dateLe_iff]; unfold dateLeP; omega

theorem dateLe_trans {a b c : Date} (h1 : dateLe a b = true)
    (h2 : dateLe b c = true) : dateLe a c = true := by
  rw [dateLe_iff] at *; unfold dateLeP at *; omega

theorem dateLe_total (a b : Date) :
    dateLe a b = true ∨ dateLe b a = true := by
  rw [dateLe_iff, dateLe_iff]; unfold dateLeP; omega

theorem dateLe_antisymm {a b : Date} (h1 : dateLe a b = true)
    (h2 : dateLe b a = true) : a = b := by
  rw [dateLe_iff] at *; unfold dateLeP at *
  have hy : a.year = b.year := by omega
  have hm : a.month = b.month := by omega
  have hd : a.day = b.day := by omega
  cases a; cases b; simp_all

/-- One observation of the GDPC1 series: a calendar date and a value. -/
structure Obs where
  date : Date
  value : ℚ
deriving DecidableEq

/-- A peak-search window: a closed date interval. -/
abbrev Window := Date × Date

/-- Membership of a date in a closed window, matching the source condition
(Date >= rng[0]) & (Date <= rng[1]). -/
def inWindow (d : Date) (w : Window) : Bool := dateLe w.1 d && dateLe d w.2

/-- The observations of the series lying in the window. -/
def windowObs (series : List Obs) (w : Window) : List Obs :=
  series.filter (fun o => inWindow o.date w)

/-- Maximum of a list of rationals, none when empty: the model of
pandas Series.max() on a float column without NaNs. -/
def valMax : List ℚ → Option ℚ
  | [] => none
  | v :: vs => some (vs.foldl max v)

/-- Minimum of a list of rationals, none when empty. -/
def valMin : List ℚ → Option ℚ
  | [] => none
  | v :: vs => some (vs.foldl min v)

/-- Later of two dates. -/
def dMax (a b : Date) : Date := if dateLe a b then b else a

/-- Latest date of a list, none when empty: the model of
pandas Series.max() on a datetime column. -/
def dateMaxL : List Date → Option Date
  | [] => none
  | d :: ds => some (ds.foldl dMax d)

/-- Model of the peak value computation of lines 210-212: the maximum
GDPC1 value among observations in the closed window. -/
def peakVal (series : List Obs) (w : Window) : Option ℚ :=
  valMax ((windowObs series w).map Obs.value)

/-- Model of the peak date computation of lines 218-221: the latest date
among in-window observations whose value equals the peak value. -/
def peakDate (series : List Obs) (w : Window) (pv : ℚ) : Option Date :=
  dateMaxL (((windowObs series w).filter
    (fun o => decide (o.value = pv))).map Obs.date)

theorem foldl_max_mem (vs : List ℚ) (v : ℚ) :
    vs.foldl max v = v ∨ vs.foldl max v ∈ vs := by
  induction vs generalizing v with
  | nil => left; rfl
  | cons x xs ih =>
    rcases ih (max v x) with h | h
    · rcases max_choice v x with hm | hm
      · left; rw [List.foldl_cons, h, hm]
      · right; rw [List.foldl_cons, h, hm]; exact List.mem_cons_self x xs
    · right; exact List.mem_cons_of_mem x h

theorem le_foldl_max_init (vs : List ℚ) (v : ℚ) : v ≤ vs.foldl max v := by
  induction vs generalizing v with
  | nil => exact le_refl v
  | cons y ys ih =>
    rw [List.foldl_cons]
    exact le_trans (le_max_left v y) (ih (max v y))

theorem foldl_max_le (vs : List ℚ) (v x : ℚ) (hx : x = v ∨ x ∈ vs) :
    x ≤ vs.foldl max v := by
  induction vs generalizing v with
  | nil =>
    rcases hx with h | h
    · exact le_of_eq h
    · cases h
  | cons y ys ih =>
    rw [List.foldl_cons]
    rcases hx with h | h
    · exact le_trans (le_of_eq h)
        (le_trans (le_max_left v y) (le_foldl_max_init ys (max v y)))
    · rcases List.mem_cons.mp h with h | h
      · exact le_trans (le_of_eq h)
          (le_trans (le_max_right v y) (le_foldl_max_init ys (max v y)))
      · exact ih (max v y) (Or.inr h)

theorem valMax_mem {l : List ℚ} {v : ℚ} (h : valMax l = some v) : v ∈ l := by
  cases l with
  | nil => simp [valMax] at h
  | cons x xs =>
    simp only [valMax, Option.some.injEq] at h
    rcases foldl_max_mem xs x with h2 | h2
    · rw [← h, h2]; exact List.mem_cons_self x xs
    · rw [← h]; exact List.mem_cons_of_mem x h2

theorem valMax_ub {l : List ℚ} {v : ℚ} (h : valMax l = some v) :
    ∀ x ∈ l, x ≤ v := by
  intro x hx
  cases l with
  | nil => cases hx
  | cons y ys =>
    simp only [valMax, Option.some.injEq] at h
    rw [← h]
    rcases List.mem_cons.mp hx with h2 | h2
    · exact foldl_max_le ys y x (Or.inl h2)
    · exact foldl_max_le ys y x (Or.inr h2)

theorem valMax_isSome {l : List ℚ} (h : l ≠ []) : (valMax l).isSome = true := by
  cases l with
  | nil => exact absurd rfl h
  | cons x xs => simp [valMax]

theorem foldl_dMax_mem (ds : List Date) (d : Date) :
    ds.foldl dMax d = d ∨ ds.foldl dMax d ∈ ds := by
  induction ds generalizing d with
  | nil => left; rfl
  | cons x xs ih =>
    have hchoice : dMax d x = d ∨ dMax d x = x := by
      unfold dMax; split <;> simp
    rcases ih (dMax d x) with h | h
    · rcases hchoice with hm | hm
      · left; rw [List.foldl_cons, h, hm]
      · right; rw [List.foldl_cons, h, hm]; exact List.mem_cons_self x xs
    · right; exact List.mem_cons_of_mem x h

theorem dateLe_dMax_left (a b : Date) : dateLe a (dMax a b) = true := by
  unfold dMax; split
  · assumption
  · exact dateLe_refl a

theorem dateLe_dMax_right (a b : Date) : dateLe b (dMax a b) = true := by
  unfold dMax; split
  · exact dateLe_refl b
  · rcases dateLe_total a b with h | h
    · simp_all
    · exact h

theorem dateLe_foldl_init (ds : List Date) (d : Date) :
    dateLe d (ds.foldl dMax d) = true := by
  induction ds generalizing d with
  | nil => exact dateLe_refl d
  | cons y ys ih =>
    rw [List.foldl_cons]
    exact dateLe_trans (dateLe_dMax_left d y) (ih (dMax d y))

theorem foldl_dMax_le (ds : List Date) (d x : Date) (hx : x = d ∨ x ∈ ds) :
    dateLe x (ds.foldl dMax d) = true := by
  induction ds generalizing d with
  | nil =>
    rcases hx with h | h
    · rw [h]; exact dateLe_refl d
    · cases h
  | cons y ys ih =>
    rw [List.foldl_cons]
    rcases hx with h | h
    · rw [h]
      exact dateLe_trans (dateLe_dMax_left d y) (dateLe_foldl_init ys (dMax d y))
    · rcases List.mem_cons.mp h with h | h
      · rw [h]
        exact dateLe_trans (dateLe_dMax_right d y) (dateLe_foldl_init ys (dMax d y))
      · exact ih (dMax d y) (Or.inr h)

theorem dateMaxL_mem {l : List Date} {d : Date} (h : dateMaxL l = some d) :
    d ∈ l := by
  cases l with
  | nil => simp [dateMaxL] at h
  | cons x xs =>
    simp only [dateMaxL, Option.some.injEq] at h
    rcases foldl_dMax_mem xs x with h2 | h2
    · rw [← h, h2]; exact List.mem_cons_self x xs
    · rw [← h]; exact List.mem_cons_of_mem x h2

theorem dateMaxL_ub {l : List Date} {d : Date} (h : dateMaxL l = some d) :
    ∀ x ∈ l, dateLe x d = true := by
  intro x hx
  cases l with
  | nil => cases hx
  | cons y ys =>
    simp only [dateMaxL, Option.some.injEq] at h
    rw [← h]
    rcases List.mem_cons.mp hx with h2 | h2
    · exact foldl_dMax_le ys y x (Or.inl h2)
    · exact foldl_dMax_le ys y x (Or.inr h2)

theorem dateMaxL_isSome {l : List Date} (h : l ≠ []) :
    (dateMaxL l).isSome = true := by
  cases l with
  | nil => exact absurd rfl h
  | cons x xs => simp [dateMaxL]

theorem peakVal_attained {series : List Obs} {w : Window} {pv : ℚ}
    (h : peakVal series w = some pv) :
    ∃ o ∈ windowObs series w, o.value = pv := by
  have hm := valMax_mem h
  rcases List.mem_map.mp hm with ⟨o, ho, hv⟩
  exact ⟨o, ho, hv⟩

theorem peakDate_attained {series : List Obs} {w : Window} {pv : ℚ}
    {pd : Date} (h : peakDate series w pv = some pd) :
    ∃ o ∈ windowObs series w, o.value = pv ∧ o.date = pd := by
  have hm := dateMaxL_mem h
  rcases List.mem_map.mp hm with ⟨o, ho, hd⟩
  rcases List.mem_filter.mp ho with ⟨ho2, hv⟩
  exact ⟨o, ho2, by simpa using hv, hd⟩

theorem peakDate_isSome {series : List Obs} {w : Window} {pv : ℚ}
    (h : peakVal series w = some pv) :
    (peakDate series w pv).isSome = true := by
  rcases peakVal_attained h with ⟨o, ho, hv⟩
  apply dateMaxL_isSome
  intro hnil
  have : o.date ∈ (((windowObs series w).filter
      (fun o => decide (o.value = pv))).map Obs.date) := by
    exact List.mem_map_of_mem Obs.date (List.mem_filter.mpr ⟨ho, by simpa using hv⟩)
  rw [hnil] at this
  cases this

/-- Claim C2: the peak computation returns the maximum observed value in
the closed window, and the peak date is the latest in-window date attaining
that maximum, so that of two equal maximal values the later date is
chosen. -/
theorem C2_peak_max_latest_date (series : List Obs) (w : Window) :
    (windowObs series w ≠ [] → (peakVal series w).isSome = true) ∧
    (∀ pv : ℚ, peakVal series w = some pv →
      (peakDate series w pv).isSome = true) ∧
    (∀ pv pd, peakVal series w = some pv → peakDate series w pv = some pd →
      (∃ o ∈ windowObs series w, o.value = pv ∧ o.date = pd) ∧
      (∀ o ∈ windowObs series w, o.value ≤ pv) ∧
      (∀ o ∈ windowObs series w, o.value = pv → dateLe o.date pd = true)) := by
  refine ⟨?_, ?_, ?_⟩
  · intro hne
    apply valMax_isSome
    intro hnil
    exact hne (by simpa using hnil)
  · intro pv hpv
    exact peakDate_isSome hpv
  · intro pv pd hpv hpd
    refine ⟨peakDate_attained hpd, ?_, ?_⟩
    · intro o ho
      exact valMax_ub hpv o.value (List.mem_map_of_mem Obs.value ho)
    · intro o ho hv
      apply dateMaxL_ub hpd
      exact List.mem_map_of_mem Obs.date
        (List.mem_filter.mpr ⟨ho, by simpa using hv⟩)

/-- Fixture for the tie-break law: two equal maximal values 5 at
2000-01-01 and 2000-04-01. -/
def tieSeries : List Obs := [⟨⟨2000, 1, 1⟩, 5⟩, ⟨⟨2000, 4, 1⟩, 5⟩]

def tieWindow : Window := (⟨2000, 1, 1⟩, ⟨2000, 7, 1⟩)

/-- Witness for C2 on the tie fixture: the peak value is attained at both
dates, and the returned peak date 2000-04-01 is the later one. -/
theorem C2_witness :
    peakVal tieSeries tieWindow = some 5 ∧
    peakDate tieSeries tieWindow 5 = some ⟨2000, 4, 1⟩ ∧
    (5 : ℚ) ≤ 5 ∧ dateLe ⟨2000, 1, 1⟩ ⟨2000, 4, 1⟩ = true := by
  have h := (C2_peak_max_latest_date tieSeries tieWindow).2.2 5 ⟨2000, 4, 1⟩
    (by decide) (by decide)
  refine ⟨by decide, by decide, ?_, ?_⟩
  · exact h.2.1 ⟨⟨2000, 1, 1⟩, 5⟩ (by decide)
  · exact h.2.2 ⟨⟨2000, 1, 1⟩, 5⟩ (by decide) rfl

/-- Model of the offset column of lines 223-226:
(Date.year - peak_date.year) * 4 + (Date.month - peak_date.month) / 3,
a rational because the month difference need not be divisible by 3. -/
def qtrsFrmPk (d pk : Date) : ℚ :=
  ((d.year - pk.year : ℤ) : ℚ) * 4 + ((d.month - pk.month : ℤ) : ℚ) / 3

/-- Three times the offset, as an integer:
(year - peak_year) * 12 + (month - peak_month). Used as the executable
join test; the lemma rowMatches_eq_source_filter proves that testing
3 * axis = qtrsFrmPk3 is the same as testing the source's rational
equality axis = qtrsFrmPk. -/
def qtrsFrmPk3 (d pk : Date) : ℤ :=
  (d.year - pk.year) * 12 + (d.month - pk.month)

/-- Model of np.arange(-bkwd_qtrs_max, frwd_qtrs_max + 1) of line 202. -/
def axisList (bkwd frwd : Nat) : List ℤ :=
  (List.range (bkwd + frwd + 1)).map (fun (k : ℕ) => (k : ℤ) - (bkwd : ℤ))

/-- One row of the running wide table usgdp_pk: its qtrs_frm_peak axis
value and, for each recession merged so far, either the merged
(Date{i}, GDPC1{i}, usgdp_dv_pk{i}) triple or null. -/
structure Row where
  axis : ℤ
  cols : List (Option (Date × ℚ × ℚ))
deriving DecidableEq

/-- The initial one-column table of lines 201-203. -/
def initTable (bkwd frwd : Nat) : List Row :=
  (axisList bkwd frwd).map (fun a => ⟨a, []⟩)

/-- The right-side rows matching a given axis value in the merge of lines
234-239: observations whose offset column equals the axis key. The test
is written in the equivalent integer form 3 * a = qtrsFrmPk3 so that it
evaluates by kernel reduction; rowMatches_eq_source_filter proves it
equal to filtering on the source's equality a = qtrsFrmPk. -/
def rowMatches (series : List Obs) (pk : Date) (a : ℤ) : List Obs :=
  series.filter (fun o => decide (3 * a = qtrsFrmPk3 o.date pk))

/-- Model of one iteration of the merge loop (lines 234-242): a pandas
left join of the running table onto the series keyed on
qtrs_frm_peak = qtrs_frm_pk{i}. Every left row is kept; each matching
observation duplicates the left row; a row with no match gets a null
triple. The temporary join column is dropped and Date, GDPC1 are renamed,
so a row just gains one (Date{i}, GDPC1{i}, usgdp_dv_pk{i}) entry, the
ratio column being GDPC1 / peak_val as assigned on line 215. -/
def mergeStep (table : List Row) (series : List Obs) (pv : ℚ) (pk : Date) :
    List Row :=
  table.flatMap (fun r =>
    match rowMatches series pk r.axis with
    | [] => [⟨r.axis, r.cols ++ [none]⟩]
    | ms => ms.map (fun o => ⟨r.axis, r.cols ++ [some (o.date, o.value, o.value / pv)]⟩))

/-- Model of the ValueError raised by the source when a peak-search window
holds no observation: peak_val is NaN, so the date filter is empty,
peak_date is NaT, and NaT.strftime on line 222 raises. The second
constructor is modelled from the spec: the typed EmptyWindowError carrying
the offending recession index and window that section 7 of the spec
prescribes; the code never constructs such a value. -/
inductive PyErr where
  | natStrftime : PyErr
  | emptyWindow (idx : Nat) (window : Window) : PyErr
deriving DecidableEq

/-- The hardcoded recession catalog maxdate_rng_lst of lines 184-198. -/
def maxdate_rng_lst : List Window :=
  [(⟨1929, 7, 1⟩, ⟨1929, 10, 1⟩),
   (⟨1937, 4, 1⟩, ⟨1937, 10, 1⟩),
   (⟨1945, 1, 1⟩, ⟨1945, 4, 1⟩),
   (⟨1948, 7, 1⟩, ⟨1949, 1, 1⟩),
   (⟨1953, 4, 1⟩, ⟨1953, 7, 1⟩),
   (⟨1957, 7, 1⟩, ⟨1957, 10, 1⟩),
   (⟨1960, 1, 1⟩, ⟨1960, 4, 1⟩),
   (⟨1969, 7, 1⟩, ⟨1970, 1, 1⟩),
   (⟨1973, 10, 1⟩, ⟨1974, 1, 1⟩),
   (⟨1979, 10, 1⟩, ⟨1980, 4, 1⟩),
   (⟨1981, 4, 1⟩, ⟨1981, 10, 1⟩),
   (⟨1990, 4, 1⟩, ⟨1991, 10, 1⟩),
   (⟨2001, 1, 1⟩, ⟨2001, 7, 1⟩),
   (⟨2007, 7, 1⟩, ⟨2008, 1, 1⟩),
   (⟨2019, 10, 1⟩, ⟨2020, 3, 1⟩)]

/-- The recession loop of lines 207-242: for each window in catalog order,
compute the peak value and peak date, then left-merge the offset-keyed
series into the running table; abort with the strftime ValueError when a
window holds no observation. Accumulates peak_vals and peak_dates. -/
def buildLoop (series : List Obs) :
    List Window → List Row → List ℚ → List Date →
    Except PyErr (List Row × List ℚ × List Date)
  | [], table, pvs, pds => .ok (table, pvs, pds)
  | w :: ws, table, pvs, pds =>
    match peakVal series w with
    | none => .error .natStrftime
    | some pv =>
      match peakDate series w pv with
      | none => .error .natStrftime
      | some pd =>
        buildLoop series ws (mergeStep table series pv pd)
          (pvs ++ [pv]) (pds ++ [pd])

/-- Model of get_usgdp_data restricted to its computational core
(lines 200-247): the aligned table construction over the hardcoded
15-recession catalog, returning the wide table plus the peak value and
peak date lists, or the error a misconfigured window raises. -/
def getUsgdpData (series : List Obs) (bkwd frwd : Nat) :
    Except PyErr (List Row × List ℚ × List Date) :=
  buildLoop series maxdate_rng_lst (initTable bkwd frwd) [] []

/-- True when the run completed and returned a table. -/
def resultOk (r : Except PyErr (List Row × List ℚ × List Date)) : Bool :=
  match r with
  | .ok _ => true
  | .error _ => false

/-- Row count of a successful run's table. -/
def tableRowCount (r : Except PyErr (List Row × List ℚ × List Date)) :
    Option Nat :=
  match r with
  | .ok (t, _, _) => some t.length
  | .error _ => none

/-- Axis column of a successful run's table. -/
def tableAxes (r : Except PyErr (List Row × List ℚ × List Date)) :
    Option (List ℤ) :=
  match r with
  | .ok (t, _, _) => some (t.map Row.axis)
  | .error _ => none

/-- Length of the peak_vals list of a successful run. -/
def pvsLen (r : Except PyErr (List Row × List ℚ × List Date)) : Option Nat :=
  match r with
  | .ok (_, pvs, _) => some pvs.length
  | .error _ => none

/-- Fixture series with exactly one observation in each of the 15
peak-search windows of the catalog, dated on the quarterly lattice with
strictly increasing dates; the Great Recession window observation carries
the value 15000 at 2007-10-01 to mirror the spec's concrete scenario. -/
def okFixture : List Obs :=
  [⟨⟨1929, 7, 1⟩, 1⟩, ⟨⟨1937, 4, 1⟩, 1⟩, ⟨⟨1945, 1, 1⟩, 1⟩,
   ⟨⟨1948, 7, 1⟩, 1⟩, ⟨⟨1953, 4, 1⟩, 1⟩, ⟨⟨1957, 7, 1⟩, 1⟩,
   ⟨⟨1960, 1, 1⟩, 1⟩, ⟨⟨1969, 7, 1⟩, 1⟩, ⟨⟨1973, 10, 1⟩, 1⟩,
   ⟨⟨1979, 10, 1⟩, 1⟩, ⟨⟨1981, 4, 1⟩, 1⟩, ⟨⟨1990, 4, 1⟩, 1⟩,
   ⟨⟨2001, 1, 1⟩, 1⟩, ⟨⟨2007, 10, 1⟩, 15000⟩, ⟨⟨2019, 10, 1⟩, 1⟩]

/-- The okFixture with a second observation in the same calendar month as
the Great Recession peak (2007-10-02): two observations share the offset
0 for that recession, so the left join duplicates the axis row. -/
def dupFixture : List Obs :=
  [⟨⟨1929, 7, 1⟩, 1⟩, ⟨⟨1937, 4, 1⟩, 1⟩, ⟨⟨1945, 1, 1⟩, 1⟩,
   ⟨⟨1948, 7, 1⟩, 1⟩, ⟨⟨1953, 4, 1⟩, 1⟩, ⟨⟨1957, 7, 1⟩, 1⟩,
   ⟨⟨1960, 1, 1⟩, 1⟩, ⟨⟨1969, 7, 1⟩, 1⟩, ⟨⟨1973, 10, 1⟩, 1⟩,
   ⟨⟨1979, 10, 1⟩, 1⟩, ⟨⟨1981, 4, 1⟩, 1⟩, ⟨⟨1990, 4, 1⟩, 1⟩,
   ⟨⟨2001, 1, 1⟩, 1⟩, ⟨⟨2007, 10, 1⟩, 15000⟩, ⟨⟨2007, 10, 2⟩, 14000⟩,
   ⟨⟨2019, 10, 1⟩, 1⟩]

/-- The okFixture in reverse order: dates strictly decreasing. -/
def revFixture : List Obs := okFixture.reverse

/-- Strictly increasing dates, the ordering the spec assumes of the
loaded series. -/
def strictlyIncreasing (series : List Obs) : Prop :=
  series.Pairwise (fun a b => dateLt a.date b.date = true)

instance (series : List Obs) : Decidable (strictlyIncreasing series) := by
  unfold strictlyIncreasing; infer_instance

theorem qtrsFrmPk_mul3 (d pk : Date) :
    qtrsFrmPk d pk * 3 = ((qtrsFrmPk3 d pk : ℤ) : ℚ) := by
  unfold qtrsFrmPk qtrsFrmPk3
  push_cast
  ring

theorem qtrsFrmPk_cast_eq_iff (d pk : Date) (a : ℤ) :
    (a : ℚ) = qtrsFrmPk d pk ↔ 3 * a = qtrsFrmPk3 d pk := by
  constructor
  · intro h
    have h3 : (a : ℚ) * 3 = qtrsFrmPk d pk * 3 := by rw [h]
    rw [qtrsFrmPk_mul3] at h3
    have h4 : ((a * 3 : ℤ) : ℚ) = ((qtrsFrmPk3 d pk : ℤ) : ℚ) := by
      push_cast
      linarith
    have h5 : a * 3 = qtrsFrmPk3 d pk := by exact_mod_cast h4
    omega
  · intro h
    have h4 : ((a * 3 : ℤ) : ℚ) = ((qtrsFrmPk3 d pk : ℤ) : ℚ) := by
      exact_mod_cast (by omega : a * 3 = qtrsFrmPk3 d pk)
    rw [← qtrsFrmPk_mul3] at h4
    push_cast at h4
    linarith

theorem rowMatches_eq_source_filter (series : List Obs) (pk : Date) (a : ℤ) :
    rowMatches series pk a =
      series.filter (fun o => decide ((a : ℚ) = qtrsFrmPk o.date pk)) := by
  unfold rowMatches
  apply List.filter_congr
  intro o ho
  simp only [decide_eq_decide]
  exact (qtrsFrmPk_cast_eq_iff o.date pk a).symm

theorem qtrsFrmPk_eq_iff {d1 d2 : Date} (pk : Date)
    (h1 : 1 ≤ d1.month ∧ d1.month ≤ 12) (h2 : 1 ≤ d2.month ∧ d2.month ≤ 12) :
    qtrsFrmPk d1 pk = qtrsFrmPk d2 pk ↔
      d1.year = d2.year ∧ d1.month = d2.month := by
  constructor
  · intro h
    have h3 : qtrsFrmPk d1 pk * 3 = qtrsFrmPk d2 pk * 3 := by rw [h]
    rw [qtrsFrmPk_mul3, qtrsFrmPk_mul3] at h3
    have h4 : (d1.year - pk.year) * 12 + (d1.month - pk.month) =
        (d2.year - pk.year) * 12 + (d2.month - pk.month) := by
      exact_mod_cast h3
    omega
  · intro ⟨hy, hm⟩
    unfold qtrsFrmPk
    rw [hy, hm]

theorem qtrsFrmPk_zero_iff {d pk : Date}
    (h1 : 1 ≤ d.month ∧ d.month ≤ 12) (h2 : 1 ≤ pk.month ∧ pk.month ≤ 12) :
    qtrsFrmPk d pk = 0 ↔ d.year = pk.year ∧ d.month = pk.month := by
  constructor
  · intro h
    have h3 : qtrsFrmPk d pk * 3 = 0 := by rw [h]; ring
    rw [qtrsFrmPk_mul3] at h3
    have h4 : (d.year - pk.year) * 12 + (d.month - pk.month) = 0 := by
      exact_mod_cast h3
    omega
  · intro ⟨hy, hm⟩
    unfold qtrsFrmPk
    rw [hy, hm]
    push_cast
    ring

theorem qtrsFrmPk_mono {d1 d2 pk : Date}
    (h1 : 1 ≤ d1.month ∧ d1.month ≤ 12) (h2 : 1 ≤ d2.month ∧ d2.month ≤ 12)
    (hle : dateLe d1 d2 = true) : qtrsFrmPk d1 pk ≤ qtrsFrmPk d2 pk := by
  rw [dateLe_iff] at hle
  unfold dateLeP at hle
  have h3 : (d1.year - pk.year) * 12 + (d1.month - pk.month) ≤
      (d2.year - pk.year) * 12 + (d2.month - pk.month) := by omega
  have h4 : qtrsFrmPk d1 pk * 3 ≤ qtrsFrmPk d2 pk * 3 := by
    rw [qtrsFrmPk_mul3, qtrsFrmPk_mul3]
    exact_mod_cast h3
  linarith

theorem filter_length_le_one {α β : Type} [DecidableEq β]
    (l : List α) (f : α → β) (p : α → Bool)
    (hnd : (l.map f).Nodup)
    (hcong : ∀ x ∈ l, p x = true → ∀ y ∈ l, p y = true → f x = f y) :
    (l.filter p).length ≤ 1 := by
  induction l with
  | nil => simp
  | cons a as ih =>
    rw [List.map_cons, List.nodup_cons] at hnd
    cases hp : p a with
    | false =>
      rw [List.filter_cons_of_neg (by simp [hp])]
      exact ih hnd.2 (fun x hx hpx y hy hpy =>
        hcong x (List.mem_cons_of_mem a hx) hpx y (List.mem_cons_of_mem a hy) hpy)
    | true =>
      rw [List.filter_cons_of_pos (by simp [hp])]
      have hnil : as.filter p = [] := by
        rcases h : as.filter p with _ | ⟨y, ys⟩
        · rfl
        · exfalso
          have hy : y ∈ as.filter p := by rw [h]; exact List.mem_cons_self y ys
          rcases List.mem_filter.mp hy with ⟨hy1, hy2⟩
          have heq : f y = f a :=
            hcong y (List.mem_cons_of_mem a hy1) hy2 a (List.mem_cons_self a as) hp
          exact hnd.1 (heq ▸ List.mem_map_of_mem f hy1)
      rw [hnil]
      simp

theorem rowMatches_len_le_one {series : List Obs}
    (hm : ∀ o ∈ series, 1 ≤ o.date.month ∧ o.date.month ≤ 12)
    (hnd : (series.map (fun o => (o.date.year, o.date.month))).Nodup)
    (pk : Date) (a : ℤ) : (rowMatches series pk a).length ≤ 1 := by
  apply filter_length_le_one series (fun o => (o.date.year, o.date.month)) _ hnd
  intro x hx hpx y hy hpy
  have hqx : 3 * a = qtrsFrmPk3 x.date pk := by simpa using hpx
  have hqy : 3 * a = qtrsFrmPk3 y.date pk := by simpa using hpy
  have hbx := hm x hx
  have hby := hm y hy
  unfold qtrsFrmPk3 at hqx hqy
  have hym : x.date.year = y.date.year ∧ x.date.month = y.date.month := by
    omega
  simp [hym.1, hym.2]

theorem mem_mergeStep {t : List Row} {L : List Obs} {pv : ℚ} {pk : Date}
    {r' : Row} :
    r' ∈ mergeStep t L pv pk ↔ ∃ r ∈ t, r'.axis = r.axis ∧
      ((rowMatches L pk r.axis = [] ∧ r'.cols = r.cols ++ [none]) ∨
       (∃ o ∈ rowMatches L pk r.axis,
         r'.cols = r.cols ++ [some (o.date, o.value, o.value / pv)])) := by
  unfold mergeStep
  rw [List.mem_flatMap]
  constructor
  · rintro ⟨r, hr, hmem⟩
    refine ⟨r, hr, ?_⟩
    rcases h : rowMatches L pk r.axis with _ | ⟨o, os⟩
    · rw [h] at hmem
      simp only [List.mem_singleton] at hmem
      rw [hmem]
      exact ⟨rfl, Or.inl ⟨rfl, rfl⟩⟩
    · rw [h] at hmem
      rcases List.mem_map.mp hmem with ⟨o2, ho2, hr'⟩
      rw [← hr']
      exact ⟨rfl, Or.inr ⟨o2, h ▸ ho2, rfl⟩⟩
  · rintro ⟨r, hr, haxis, hcase⟩
    refine ⟨r, hr, ?_⟩
    rcases hcase with ⟨hnil, hcols⟩ | ⟨o, ho, hcols⟩
    · rw [hnil]
      simp only [List.mem_singleton]
      cases r'
      simp_all
    · rcases h : rowMatches L pk r.axis with _ | ⟨o2, os⟩
      · rw [h] at ho; cases ho
      · rw [h] at ho
        apply List.mem_map.mpr
        refine ⟨o, ho, ?_⟩
        cases r'
        simp_all

theorem mergeStep_axis (t : List Row) (L : List Obs) (pv : ℚ) (pk : Date)
    (hle : ∀ a, (rowMatches L pk a).length ≤ 1) :
    (mergeStep t L pv pk).map Row.axis = t.map Row.axis := by
  induction t with
  | nil => rfl
  | cons r rs ih =>
    unfold mergeStep at *
    rw [List.flatMap_cons, List.map_append, ih, List.map_cons]
    rcases h : rowMatches L pk r.axis with _ | ⟨o, os⟩
    · simp
    · have hlen := hle r.axis
      rw [h] at hlen
      simp only [List.length_cons] at hlen
      have : os = [] := by
        cases os with
        | nil => rfl
        | cons _ _ => simp at hlen
      subst this
      simp

theorem mergeStep_cols_len {t : List Row} {L : List Obs} {pv : ℚ} {pk : Date}
    {r' : Row} (h : r' ∈ mergeStep t L pv pk) :
    ∃ r ∈ t, r'.cols.length = r.cols.length + 1 := by
  rcases mem_mergeStep.mp h with ⟨r, hr, _, hcase⟩
  refine ⟨r, hr, ?_⟩
  rcases hcase with ⟨_, hcols⟩ | ⟨o, _, hcols⟩ <;> simp [hcols]

theorem peakVal_none_iff (series : List Obs) (w : Window) :
    peakVal series w = none ↔ windowObs series w = [] := by
  rcases h : windowObs series w with _ | ⟨o, os⟩ <;>
    simp [peakVal, h, valMax]


theorem axisList_length (bkwd frwd : Nat) :
    (axisList bkwd frwd).length = bkwd + frwd + 1 := by
  unfold axisList
  rw [List.length_map, List.length_range]

theorem axisList_mem (bkwd frwd : Nat) (z : ℤ) :
    z ∈ axisList bkwd frwd ↔ -(bkwd : ℤ) ≤ z ∧ z ≤ (frwd : ℤ) := by
  unfold axisList
  rw [List.mem_map]
  constructor
  · rintro ⟨k, hk, hz⟩
    rw [List.mem_range] at hk
    omega
  · intro ⟨h1, h2⟩
    refine ⟨(z + bkwd).toNat, ?_, ?_⟩
    · rw [List.mem_range]; omega
    · omega

theorem axisList_nodup (bkwd frwd : Nat) : (axisList bkwd frwd).Nodup := by
  unfold axisList
  have hinj : Function.Injective (fun k : ℕ => (k : ℤ) - (bkwd : ℤ)) := by
    intro x y h
    simp only at h
    omega
  exact List.Nodup.map hinj (List.nodup_range _)

theorem initTable_axes (bkwd frwd : Nat) :
    (initTable bkwd frwd).map Row.axis = axisList bkwd frwd := by
  unfold initTable
  have hid : (Row.axis ∘ fun a => (⟨a, []⟩ : Row)) = id := rfl
  rw [List.map_map, hid, List.map_id]

theorem buildLoop_ok_axis {series : List Obs}
    (hle : ∀ pk a, (rowMatches series pk a).length ≤ 1) :
    ∀ (cat : List Window) (t : List Row) (pvs : List ℚ) (pds : List Date)
      (t' : List Row) (pvs' : List ℚ) (pds' : List Date),
      buildLoop series cat t pvs pds = .ok (t', pvs', pds') →
      t'.map Row.axis = t.map Row.axis := by
  intro cat
  induction cat with
  | nil =>
    intro t pvs pds t' pvs' pds' h
    simp only [buildLoop, Except.ok.injEq, Prod.mk.injEq] at h
    rw [← h.1]
  | cons w ws ih =>
    intro t pvs pds t' pvs' pds' h
    unfold buildLoop at h
    split at h
    · exact absurd h (by simp)
    · rename_i pv hpv
      split at h
      · exact absurd h (by simp)
      · rename_i pd hpd
        have hrec := ih (mergeStep t series pv pd) (pvs ++ [pv])
          (pds ++ [pd]) t' pvs' pds' h
        rw [hrec, mergeStep_axis t series pv pd (hle pd)]

theorem buildLoop_ok_list_lens {series : List Obs} :
    ∀ (cat : List Window) (t : List Row) (pvs : List ℚ) (pds : List Date)
      (t' : List Row) (pvs' : List ℚ) (pds' : List Date),
      buildLoop series cat t pvs pds = .ok (t', pvs', pds') →
      pvs'.length = pvs.length + cat.length ∧
      pds'.length = pds.length + cat.length := by
  intro cat
  induction cat with
  | nil =>
    intro t pvs pds t' pvs' pds' h
    simp only [buildLoop, Except.ok.injEq, Prod.mk.injEq] at h
    rw [← h.2.1, ← h.2.2]
    simp
  | cons w ws ih =>
    intro t pvs pds t' pvs' pds' h
    unfold buildLoop at h
    split at h
    · exact absurd h (by simp)
    · rename_i pv hpv
      split at h
      · exact absurd h (by simp)
      · rename_i pd hpd
        have hrec := ih (mergeStep t series pv pd) (pvs ++ [pv])
          (pds ++ [pd]) t' pvs' pds' h
        simp only [List.length_append, List.length_singleton,
          List.length_cons, List.length_nil] at *
        omega

theorem buildLoop_ok_cols_len {series : List Obs} :
    ∀ (cat : List Window) (t : List Row) (pvs : List ℚ) (pds : List Date)
      (t' : List Row) (pvs' : List ℚ) (pds' : List Date) (n : Nat),
      buildLoop series cat t pvs pds = .ok (t', pvs', pds') →
      (∀ r ∈ t, r.cols.length = n) →
      ∀ r' ∈ t', r'.cols.length = n + cat.length := by
  intro cat
  induction cat with
  | nil =>
    intro t pvs pds t' pvs' pds' n h ht r' hr'
    simp only [buildLoop, Except.ok.injEq, Prod.mk.injEq] at h
    rw [← h.1] at hr'
    simp only [List.length_nil, Nat.add_zero]
    exact ht r' hr'
  | cons w ws ih =>
    intro t pvs pds t' pvs' pds' n h ht r' hr'
    unfold buildLoop at h
    split at h
    · exact absurd h (by simp)
    · rename_i pv hpv
      split at h
      · exact absurd h (by simp)
      · rename_i pd hpd
        have hmerge : ∀ r ∈ mergeStep t series pv pd,
            r.cols.length = n + 1 := by
          intro r hr
          rcases mergeStep_cols_len hr with ⟨r0, hr0, hlen⟩
          rw [hlen, ht r0 hr0]
        have hrec := ih (mergeStep t series pv pd) (pvs ++ [pv])
          (pds ++ [pd]) t' pvs' pds' (n + 1) h hmerge r' hr'
        rw [hrec]
        simp only [List.length_cons]
        omega

theorem buildLoop_isOk_iff (series : List Obs) :
    ∀ (cat : List Window) (t : List Row) (pvs : List ℚ) (pds : List Date),
      resultOk (buildLoop series cat t pvs pds) = true ↔
      ∀ w ∈ cat, windowObs series w ≠ [] := by
  intro cat
  induction cat with
  | nil =>
    intro t pvs pds
    simp [buildLoop, resultOk]
  | cons w ws ih =>
    intro t pvs pds
    unfold buildLoop
    split
    · rename_i hpv
      simp only [resultOk, Bool.false_eq_true, false_iff]
      intro hall
      exact (hall w (List.mem_cons_self w ws))
        ((peakVal_none_iff series w).mp hpv)
    · rename_i pv hpv
      split
      · rename_i hpd
        have hs := peakDate_isSome hpv
        rw [hpd] at hs
        simp at hs
      · rename_i pd hpd
        have hne : windowObs series w ≠ [] := by
          intro hnil
          rw [(peakVal_none_iff series w).mpr hnil] at hpv
          cases hpv
        rw [ih (mergeStep t series pv pd) (pvs ++ [pv]) (pds ++ [pd])]
        simp [List.forall_mem_cons, hne]

theorem buildLoop_error_val (series : List Obs) :
    ∀ (cat : List Window) (t : List Row) (pvs : List ℚ) (pds : List Date)
      (e : PyErr), buildLoop series cat t pvs pds = .error e →
      e = .natStrftime := by
  intro cat
  induction cat with
  | nil =>
    intro t pvs pds e h
    simp [buildLoop] at h
  | cons w ws ih =>
    intro t pvs pds e h
    unfold buildLoop at h
    split at h
    · simp only [Except.error.injEq] at h
      rw [← h]
    · rename_i pv hpv
      split at h
      · simp only [Except.error.injEq] at h
        rw [← h]
      · rename_i pd hpd
        exact ih (mergeStep t series pv pd) (pvs ++ [pv]) (pds ++ [pd]) e h

/-- The error of a failed run, none on success. -/
def errOf (r : Except PyErr (List Row × List ℚ × List Date)) : Option PyErr :=
  match r with
  | .ok _ => none
  | .error e => some e

/-- Modelled from the spec: the zero-based quarter index of a month,
Jan-Mar giving 0, Apr-Jun giving 1, and so on. -/
def quarterIndex (m : ℤ) : ℤ := (m - 1) / 3

/-- Modelled from the spec: the offset formula as the spec states it,
(obsYear - peakYear) * 4 + quarterOf(obsMonth) - quarterOf(peakMonth),
an integer for every pair of dates. -/
def specQuarterOffset (d pk : Date) : ℤ :=
  (d.year - pk.year) * 4 + quarterIndex d.month - quarterIndex pk.month

/-- Counterexample to claim C1 as stated: for an observation dated in a
month off the quarterly lattice (here February against a January peak
date), the source's offset (month difference divided by 3, here 1/3)
differs from the spec formula built on zero-based quarter indices
(here 0). -/
theorem C1_cex :
    qtrsFrmPk ⟨2000, 2, 1⟩ ⟨2000, 1, 1⟩ ≠
      ((specQuarterOffset ⟨2000, 2, 1⟩ ⟨2000, 1, 1⟩ : ℤ) : ℚ) := by
  intro h
  have h3 : qtrsFrmPk ⟨2000, 2, 1⟩ ⟨2000, 1, 1⟩ * 3 =
      ((specQuarterOffset ⟨2000, 2, 1⟩ ⟨2000, 1, 1⟩ : ℤ) : ℚ) * 3 := by
    rw [h]
  rw [qtrsFrmPk_mul3] at h3
  rw [show qtrsFrmPk3 ⟨2000, 2, 1⟩ ⟨2000, 1, 1⟩ = 1 from by decide,
      show specQuarterOffset ⟨2000, 2, 1⟩ ⟨2000, 1, 1⟩ = 0 from by decide]
    at h3
  norm_num at h3

/-- Claim C1 amended: for observations and peak dates on the quarterly
lattice (months 1, 4, 7, 10) the computed offset
(obsYear - peakYear) * 4 + (obsMonth - peakMonth) / 3 equals the spec
formula (obsYear - peakYear) * 4 + quarterIndex obsMonth -
quarterIndex peakMonth and is therefore an integer; and in the concrete
scenario the observation 2008-01-01 maps to offset +1 from the peak date
2007-10-01. Off the lattice the two formulas differ (see the
counterexample), since the code divides the raw month difference by 3. -/
theorem C1_offset_formula (d pk : Date)
    (hd : d.month = 1 ∨ d.month = 4 ∨ d.month = 7 ∨ d.month = 10)
    (hpk : pk.month = 1 ∨ pk.month = 4 ∨ pk.month = 7 ∨ pk.month = 10) :
    qtrsFrmPk d pk = ((specQuarterOffset d pk : ℤ) : ℚ) ∧
    (∃ z : ℤ, qtrsFrmPk d pk = (z : ℚ)) ∧
    qtrsFrmPk ⟨2008, 1, 1⟩ ⟨2007, 10, 1⟩ = 1 := by
  have h3d : 3 * quarterIndex d.month = d.month - 1 := by
    rcases hd with h | h | h | h <;> rw [h] <;> decide
  have h3pk : 3 * quarterIndex pk.month = pk.month - 1 := by
    rcases hpk with h | h | h | h <;> rw [h] <;> decide
  have hint : qtrsFrmPk3 d pk = 3 * specQuarterOffset d pk := by
    unfold qtrsFrmPk3 specQuarterOffset
    omega
  have hmain : qtrsFrmPk d pk = ((specQuarterOffset d pk : ℤ) : ℚ) := by
    have h3 : qtrsFrmPk d pk * 3 = ((specQuarterOffset d pk : ℤ) : ℚ) * 3 := by
      rw [qtrsFrmPk_mul3, hint]
      push_cast
      ring
    exact mul_right_cancel₀ (by norm_num) h3
  refine ⟨hmain, ⟨specQuarterOffset d pk, hmain⟩, ?_⟩
  have h3 : qtrsFrmPk ⟨2008, 1, 1⟩ ⟨2007, 10, 1⟩ * 3 = (1 : ℚ) * 3 := by
    rw [qtrsFrmPk_mul3,
      show qtrsFrmPk3 ⟨2008, 1, 1⟩ ⟨2007, 10, 1⟩ = 3 from by decide]
    norm_num
  exact mul_right_cancel₀ (by norm_num) h3

/-- Witness for C1 at the concrete scenario dates: 2008-01-01 against
peak 2007-10-01, both on the quarterly lattice. -/
theorem C1_wit :
    qtrsFrmPk ⟨2008, 1, 1⟩ ⟨2007, 10, 1⟩ =
      ((specQuarterOffset ⟨2008, 1, 1⟩ ⟨2007, 10, 1⟩ : ℤ) : ℚ) ∧
    qtrsFrmPk ⟨2008, 1, 1⟩ ⟨2007, 10, 1⟩ = 1 := by
  have h := C1_offset_formula ⟨2008, 1, 1⟩ ⟨2007, 10, 1⟩
    (by decide) (by decide)
  exact ⟨h.1, h.2.2⟩

/-- Counterexample to claim C6 as stated: on a series leaving a window
empty the code does abort, but with the untyped strftime ValueError, not
with a typed EmptyWindowError carrying the offending recession index and
window (here index 0 and the 1929 window, both absent from the raised
error). -/
theorem C6_cex :
    errOf (getUsgdpData [] 0 0) = some PyErr.natStrftime ∧
    PyErr.natStrftime ≠ PyErr.emptyWindow 0 (⟨1929, 7, 1⟩, ⟨1929, 10, 1⟩) ∧
    windowObs [] (⟨1929, 7, 1⟩, ⟨1929, 10, 1⟩) = [] := by
  exact ⟨by decide, by decide, rfl⟩

/-- Claim C6 amended: if and only if some recession's peak-search window
contains zero observations, the computation aborts before returning, so
no aligned table (not even partial) is produced; the failure is the
untyped ValueError raised when formatting the missing peak date, which
carries no recession index or window. -/
theorem C6_empty_window (series : List Obs) (bkwd frwd : Nat) :
    getUsgdpData series bkwd frwd = .error PyErr.natStrftime ↔
      ∃ w ∈ maxdate_rng_lst, windowObs series w = [] := by
  have hunf : getUsgdpData series bkwd frwd =
      buildLoop series maxdate_rng_lst (initTable bkwd frwd) [] [] := rfl
  have hiff := buildLoop_isOk_iff series maxdate_rng_lst
    (initTable bkwd frwd) [] []
  constructor
  · intro h
    have hok : resultOk (buildLoop series maxdate_rng_lst
        (initTable bkwd frwd) [] []) = false := by
      rw [← hunf, h]
      rfl
    have hnall : ¬ ∀ w ∈ maxdate_rng_lst, windowObs series w ≠ [] := by
      intro hall
      have := hiff.mpr hall
      rw [this] at hok
      cases hok
    push_neg at hnall
    exact hnall
  · intro ⟨w, hw, hempty⟩
    have hnok : resultOk (buildLoop series maxdate_rng_lst
        (initTable bkwd frwd) [] []) ≠ true := by
      intro hok
      exact (hiff.mp hok w hw) hempty
    rcases hres : buildLoop series maxdate_rng_lst
        (initTable bkwd frwd) [] [] with e | x
    · have := buildLoop_error_val series maxdate_rng_lst
        (initTable bkwd frwd) [] [] e hres
      rw [hunf, hres, this]
    · exfalso
      apply hnok
      rw [hres]
      rfl

/-- Witness for C6: the empty series leaves the first window empty and
the run returns the strftime error. -/
theorem C6_wit : getUsgdpData [] 0 0 = Except.error PyErr.natStrftime := by
  apply (C6_empty_window [] 0 0).mpr
  exact ⟨(⟨1929, 7, 1⟩, ⟨1929, 10, 1⟩), by decide, rfl⟩

/-- Counterexample to claim C7 as stated: a series whose dates are
strictly decreasing (so not strictly increasing) is processed without any
error and a table is returned; no NonMonotonicSeriesError exists in the
code. -/
theorem C7_cex :
    ¬ strictlyIncreasing revFixture ∧
    resultOk (getUsgdpData revFixture 1 1) = true := by
  exact ⟨by decide, by decide⟩

/-- Claim C7 amended: the core performs no monotonicity check at all;
a run succeeds exactly when every peak-search window contains at least
one observation, regardless of the order of the input series, so
non-monotonic input is accepted rather than rejected. -/
theorem C7_no_monotonicity_check (series : List Obs) (bkwd frwd : Nat) :
    resultOk (getUsgdpData series bkwd frwd) = true ↔
      ∀ w ∈ maxdate_rng_lst, windowObs series w ≠ [] :=
  buildLoop_isOk_iff series maxdate_rng_lst (initTable bkwd frwd) [] []

/-- Witness for C7: the reversed (non-monotonic) fixture runs to
completion because its windows are all inhabited. -/
theorem C7_wit : resultOk (getUsgdpData revFixture 0 0) = true := by
  apply (C7_no_monotonicity_check revFixture 0 0).mpr
  decide

/-- Claim C9: the aligned-table construction is a deterministic function
of the series, the catalog and the axis bounds; two invocations on equal
inputs give equal results, there being no shared mutable state in the
model. -/
theorem C9_deterministic (s1 s2 : List Obs) (b1 b2 f1 f2 : Nat)
    (hs : s1 = s2) (hb : b1 = b2) (hf : f1 = f2) :
    getUsgdpData s1 b1 f1 = getUsgdpData s2 b2 f2 := by
  rw [hs, hb, hf]

/-- Witness for C9 at the fixture. -/
theorem C9_wit : getUsgdpData okFixture 0 0 = getUsgdpData okFixture 0 0 :=
  C9_deterministic okFixture okFixture 0 0 0 0 rfl rfl rfl

/-- Counterexample to claim C3 as stated: the row-count guarantee fails
for an input series in which two observations share a calendar month
(2007-10-01 and 2007-10-02): both match offset 0 of the Great Recession
merge, the left join duplicates the axis row, and with
backwardMax = forwardMax = 0 the table has 2 rows instead of 1. -/
theorem C3_cex :
    tableRowCount (getUsgdpData dupFixture 0 0) = some 2 ∧
    (2 : Nat) ≠ 0 + 0 + 1 := by
  exact ⟨by decide, by decide⟩

/-- Claim C3 amended: provided no two observations of the series share a
calendar (year, month) and months are well-formed (1..12), every merge
preserves the offset axis column exactly; a successful run's table has
axis column exactly the integer sequence -backwardMax .. forwardMax,
without gaps or duplicates, of length backwardMax + forwardMax + 1, and
with both bounds 0 the axis is the single row at offset 0. -/
theorem C3_axis_invariants (series : List Obs) (bkwd frwd : Nat)
    (hm : ∀ o ∈ series, 1 ≤ o.date.month ∧ o.date.month ≤ 12)
    (hnd : (series.map (fun o => (o.date.year, o.date.month))).Nodup) :
    (∀ (table : List Row) (pv : ℚ) (pd : Date),
      (mergeStep table series pv pd).map Row.axis = table.map Row.axis) ∧
    (∀ t pvs pds, getUsgdpData series bkwd frwd = .ok (t, pvs, pds) →
      t.map Row.axis = axisList bkwd frwd) ∧
    (axisList bkwd frwd).Nodup ∧
    (axisList bkwd frwd).length = bkwd + frwd + 1 ∧
    (∀ z : ℤ, z ∈ axisList bkwd frwd ↔ -(bkwd : ℤ) ≤ z ∧ z ≤ (frwd : ℤ)) ∧
    axisList 0 0 = [0] := by
  have hle : ∀ pk a, (rowMatches series pk a).length ≤ 1 := fun pk a =>
    rowMatches_len_le_one hm hnd pk a
  refine ⟨?_, ?_, axisList_nodup _ _, axisList_length _ _,
    axisList_mem _ _, by decide⟩
  · intro table pv pd
    exact mergeStep_axis table series pv pd (hle pd)
  · intro t pvs pds h
    have hax := buildLoop_ok_axis hle maxdate_rng_lst (initTable bkwd frwd)
      [] [] t pvs pds h
    rw [hax, initTable_axes]

/-- Witness for C3 on the duplicate-free fixture with bounds 2 and 3:
the returned table's axis column is exactly the axis -2 .. 3. -/
theorem C3_wit : tableAxes (getUsgdpData okFixture 2 3) = some (axisList 2 3) := by
  rcases hres : getUsgdpData okFixture 2 3 with e | x
  · exfalso
    have hok : resultOk (getUsgdpData okFixture 2 3) = true := by decide
    rw [hres] at hok
    cases hok
  · obtain ⟨t, pvs, pds⟩ := x
    have h := (C3_axis_invariants okFixture 2 3 (by decide)
      (by decide)).2.1 t pvs pds hres
    show some (t.map Row.axis) = some (axisList 2 3)
    rw [h]

theorem mergeStep_congr {t : List Row} {L1 L2 : List Obs} {pv : ℚ}
    {pk : Date}
    (h : ∀ r ∈ t, rowMatches L1 pk r.axis = rowMatches L2 pk r.axis) :
    mergeStep t L1 pv pk = mergeStep t L2 pv pk := by
  induction t with
  | nil => rfl
  | cons r rs ih =>
    unfold mergeStep at *
    rw [List.flatMap_cons, List.flatMap_cons]
    rw [ih (fun r' hr' => h r' (List.mem_cons_of_mem r hr'))]
    rw [h r (List.mem_cons_self r rs)]

theorem filter_subsumed {α : Type} {p q : α → Bool} (L : List α)
    (h : ∀ o ∈ L, p o = true → q o = true) :
    (L.filter q).filter p = L.filter p := by
  induction L with
  | nil => rfl
  | cons a as ih =>
    have htail := ih (fun o ho hpo => h o (List.mem_cons_of_mem a ho) hpo)
    cases hq : q a with
    | true =>
      rw [List.filter_cons_of_pos hq, List.filter_cons]
      rw [List.filter_cons, htail]
    | false =>
      have hp : p a = false := by
        cases hp : p a with
        | false => rfl
        | true =>
          rw [h a (List.mem_cons_self a as) hp] at hq
          cases hq
      rw [List.filter_cons_of_neg (by simp [hq]),
        List.filter_cons_of_neg (by simp [hp]), htail]

/-- Claim C5: observations whose offset matches no axis row (in
particular any offset outside -backwardMax .. forwardMax) are silently
dropped by the left join, with no error: filtering them away beforehand
leaves the merge result unchanged. And a row of the table at whose axis
offset the recession has no observation is kept, its new recession
columns null. -/
theorem C5_out_of_range_and_left_join (table : List Row) (L : List Obs)
    (pv : ℚ) (pk : Date) :
    mergeStep table (L.filter (fun o =>
        table.any (fun r => decide ((r.axis : ℚ) = qtrsFrmPk o.date pk))))
        pv pk =
      mergeStep table L pv pk ∧
    (∀ r ∈ table, rowMatches L pk r.axis = [] →
      Row.mk r.axis (r.cols ++ [none]) ∈ mergeStep table L pv pk) := by
  constructor
  · apply mergeStep_congr
    intro r hr
    unfold rowMatches
    apply filter_subsumed
    intro o ho hpo
    apply List.any_eq_true.mpr
    refine ⟨r, hr, decide_eq_true ?_⟩
    exact (qtrsFrmPk_cast_eq_iff o.date pk r.axis).mpr (of_decide_eq_true hpo)
  · intro r hr hmatch
    apply mem_mergeStep.mpr
    exact ⟨r, hr, rfl, Or.inl ⟨hmatch, rfl⟩⟩

/-- Witness for C5: a one-row table at axis 0 and a single observation
whose offset (80 quarters) misses the axis; the merge keeps the row with
a null entry. -/
theorem C5_wit :
    Row.mk 0 [none] ∈
      mergeStep [⟨0, []⟩] [⟨⟨2020, 1, 1⟩, 5⟩] 5 ⟨2000, 1, 1⟩ :=
  (C5_out_of_range_and_left_join [⟨0, []⟩] [⟨⟨2020, 1, 1⟩, 5⟩] 5
    ⟨2000, 1, 1⟩).2 ⟨0, []⟩ (by decide) (by decide)

theorem date_ext {a b : Date} (hy : a.year = b.year) (hm : a.month = b.month)
    (hd : a.day = b.day) : a = b := by
  cases a
  cases b
  simp_all

theorem dateLt_irrefl (a : Date) : dateLt a a = false := by
  unfold dateLt
  rw [dateLe_refl]
  rfl

/-- All observation dates lie on the quarterly lattice (first day of a
quarter month) and the series is strictly increasing in date: the shape
of the real GDPC1 series handed to the aligner. -/
def strictQuarterly (series : List Obs) : Prop :=
  strictlyIncreasing series ∧
  ∀ o ∈ series, (o.date.month = 1 ∨ o.date.month = 4 ∨ o.date.month = 7 ∨
    o.date.month = 10) ∧ o.date.day = 1

instance (series : List Obs) : Decidable (strictQuarterly series) := by
  unfold strictQuarterly; infer_instance

theorem strict_nodup {series : List Obs} (h : strictlyIncreasing series) :
    (series.map Obs.date).Nodup := by
  unfold strictlyIncreasing at h
  refine List.Pairwise.map Obs.date ?_ h
  intro a b hab heq
  rw [heq] at hab
  rw [dateLt_irrefl] at hab
  cases hab

theorem filter_date_singleton {l : List Obs} {o₀ : Obs}
    (hnd : (l.map Obs.date).Nodup) (h : o₀ ∈ l) :
    l.filter (fun o => decide (o.date = o₀.date)) = [o₀] := by
  induction l with
  | nil => cases h
  | cons a as ih =>
    rw [List.map_cons, List.nodup_cons] at hnd
    rcases List.mem_cons.mp h with h0 | h0
    · rw [← h0]
      rw [List.filter_cons_of_pos (by simp)]
      have hnil : as.filter (fun o => decide (o.date = a.date)) = [] := by
        rcases hf : as.filter (fun o => decide (o.date = a.date))
          with _ | ⟨y, ys⟩
        · exact hf
        · exfalso
          have hy : y ∈ as.filter (fun o => decide (o.date = a.date)) := by
            rw [hf]; exact List.mem_cons_self y ys
          rcases List.mem_filter.mp hy with ⟨hy1, hy2⟩
          have : y.date = a.date := of_decide_eq_true hy2
          exact hnd.1 (this ▸ List.mem_map_of_mem Obs.date hy1)
      rw [← h0] at hnil
      rw [hnil]
    · have hne : a.date ≠ o₀.date := by
        intro heq
        exact hnd.1 (heq ▸ List.mem_map_of_mem Obs.date h0)
      rw [List.filter_cons_of_neg (by simp [hne])]
      exact ih hnd.2 h0

theorem lattice_month_bounds {m : ℤ}
    (h : m = 1 ∨ m = 4 ∨ m = 7 ∨ m = 10) : 1 ≤ m ∧ m ≤ 12 := by
  omega

/-- Claim C4: under a correctly configured window (the peak computation
succeeds) on a strictly increasing quarterly-lattice series of positive
values, exactly one observation maps to offset 0 and it is the peak
observation itself; the merged table's row at offset 0 carries the peak
date, the peak value, and a value-over-peak ratio of exactly 1; the peak
date lies inside the window; and offsets are monotone non-decreasing in
the date. -/
theorem C4_peak_at_offset_zero (series : List Obs) (w : Window)
    (bkwd frwd : Nat) (pv : ℚ) (pd : Date)
    (hq : strictQuarterly series)
    (hpos : ∀ o ∈ series, 0 < o.value)
    (_hpv : peakVal series w = some pv)
    (hpd : peakDate series w pv = some pd) :
    (series.filter (fun o => decide (qtrsFrmPk o.date pd = 0))).map
        (fun o => (o.date, o.value)) = [(pd, pv)] ∧
    inWindow pd w = true ∧
    (∀ r ∈ mergeStep (initTable bkwd frwd) series pv pd, r.axis = 0 →
      r.cols = [some (pd, pv, 1)]) ∧
    (∃ r ∈ mergeStep (initTable bkwd frwd) series pv pd, r.axis = 0 ∧
      r.cols = [some (pd, pv, 1)]) ∧
    (∀ o1 ∈ series, ∀ o2 ∈ series, dateLe o1.date o2.date = true →
      qtrsFrmPk o1.date pd ≤ qtrsFrmPk o2.date pd) := by
  obtain ⟨o₀, ho₀w, ho₀v, ho₀d⟩ := peakDate_attained hpd
  have ho₀s : o₀ ∈ series := (List.mem_filter.mp ho₀w).1
  have hin : inWindow o₀.date w = true := (List.mem_filter.mp ho₀w).2
  have hmb : ∀ o ∈ series, 1 ≤ o.date.month ∧ o.date.month ≤ 12 := by
    intro o ho
    exact lattice_month_bounds (hq.2 o ho).1
  have hpdm : 1 ≤ pd.month ∧ pd.month ≤ 12 := by
    rw [← ho₀d]
    exact hmb o₀ ho₀s
  have hpdday : pd.day = 1 := by
    rw [← ho₀d]
    exact (hq.2 o₀ ho₀s).2
  have hdnd : (series.map Obs.date).Nodup := strict_nodup hq.1
  have hpvpos : 0 < pv := ho₀v ▸ hpos o₀ ho₀s
  have hdate_iff : ∀ o ∈ series,
      (qtrsFrmPk o.date pd = 0 ↔ o.date = pd) := by
    intro o ho
    rw [qtrsFrmPk_zero_iff (hmb o ho) hpdm]
    constructor
    · intro ⟨hy, hm⟩
      exact date_ext hy hm (by rw [(hq.2 o ho).2, hpdday])
    · intro heq
      rw [heq]
      exact ⟨rfl, rfl⟩
  have hfe : series.filter (fun o => decide (qtrsFrmPk o.date pd = 0)) =
      series.filter (fun o => decide (o.date = pd)) := by
    apply List.filter_congr
    intro o ho
    simp only [decide_eq_decide]
    exact hdate_iff o ho
  have hfs : series.filter (fun o => decide (o.date = pd)) = [o₀] := by
    have := filter_date_singleton hdnd ho₀s
    rw [ho₀d] at this
    exact this
  have hrm : rowMatches series pd 0 = [o₀] := by
    have hre : rowMatches series pd 0 =
        series.filter (fun o => decide (o.date = pd)) := by
      unfold rowMatches
      apply List.filter_congr
      intro o ho
      simp only [decide_eq_decide]
      rw [show (3 : ℤ) * 0 = 0 from rfl]
      constructor
      · intro h0
        apply (hdate_iff o ho).mp
        apply (qtrsFrmPk_zero_iff (hmb o ho) hpdm).mpr
        unfold qtrsFrmPk3 at h0
        have hb1 := hmb o ho
        constructor <;> omega
      · intro heq
        rw [heq]
        unfold qtrsFrmPk3
        omega
    rw [hre, hfs]
  have htriple : some (o₀.date, o₀.value, o₀.value / pv) =
      some (pd, pv, (1 : ℚ)) := by
    rw [ho₀d, ho₀v, div_self (ne_of_gt hpvpos)]
  refine ⟨?_, ?_, ?_, ?_, ?_⟩
  · rw [hfe, hfs, List.map_cons, List.map_nil, ho₀d, ho₀v]
  · rw [← ho₀d]
    exact hin
  · intro r hr haxis
    rcases mem_mergeStep.mp hr with ⟨r0, hr0, haxis0, hcase⟩
    have hr0cols : r0.cols = [] := by
      unfold initTable at hr0
      rcases List.mem_map.mp hr0 with ⟨a, _, hmk⟩
      rw [← hmk]
    have hr0axis : r0.axis = 0 := by rw [← haxis0, haxis]
    rcases hcase with ⟨hnil, _⟩ | ⟨o, ho, hcols⟩
    · rw [hr0axis, hrm] at hnil
      cases hnil
    · rw [hr0axis, hrm] at ho
      have ho_eq : o = o₀ := List.mem_singleton.mp ho
      rw [hcols, hr0cols, List.nil_append, ho_eq, htriple]
  · refine ⟨⟨0, [some (pd, pv, 1)]⟩, ?_, rfl, rfl⟩
    apply mem_mergeStep.mpr
    refine ⟨⟨0, []⟩, ?_, rfl, Or.inr ⟨o₀, ?_, ?_⟩⟩
    · unfold initTable
      apply List.mem_map.mpr
      refine ⟨0, ?_, rfl⟩
      rw [axisList_mem]
      omega
    · show o₀ ∈ rowMatches series pd (0 : ℤ)
      rw [hrm]
      exact List.mem_singleton.mpr rfl
    · show [some (pd, pv, 1)] = [] ++ [some (o₀.date, o₀.value, o₀.value / pv)]
      rw [List.nil_append, htriple]
  · intro o1 h1 o2 h2 hle
    exact qtrsFrmPk_mono (hmb o1 h1) (hmb o2 h2) hle

/-- Witness for C4 on the fixture and the Great Recession window: the
unique offset-0 observation is the peak (15000 at 2007-10-01), whose date
lies in the window 2007-07-01 .. 2008-01-01. -/
theorem C4_wit :
    (okFixture.filter
        (fun o => decide (qtrsFrmPk o.date ⟨2007, 10, 1⟩ = 0))).map
        (fun o => (o.date, o.value)) = [(⟨2007, 10, 1⟩, 15000)] ∧
    inWindow ⟨2007, 10, 1⟩ (⟨2007, 7, 1⟩, ⟨2008, 1, 1⟩) = true := by
  have h := C4_peak_at_offset_zero okFixture (⟨2007, 7, 1⟩, ⟨2008, 1, 1⟩)
    0 0 15000 ⟨2007, 10, 1⟩ (by decide) (by decide) (by decide) (by decide)
  exact ⟨h.1, h.2.1⟩

theorem foldl_min_mem (vs : List ℚ) (v : ℚ) :
    vs.foldl min v = v ∨ vs.foldl min v ∈ vs := by
  induction vs generalizing v with
  | nil => left; rfl
  | cons x xs ih =>
    rcases ih (min v x) with h | h
    · rcases min_choice v x with hm | hm
      · left; rw [List.foldl_cons, h, hm]
      · right; rw [List.foldl_cons, h, hm]; exact List.mem_cons_self x xs
    · right; exact List.mem_cons_of_mem x h

theorem foldl_min_init_le (vs : List ℚ) (v : ℚ) : vs.foldl min v ≤ v := by
  induction vs generalizing v with
  | nil => exact le_refl v
  | cons y ys ih =>
    rw [List.foldl_cons]
    exact le_trans (ih (min v y)) (min_le_left v y)

theorem foldl_min_le (vs : List ℚ) (v x : ℚ) (hx : x = v ∨ x ∈ vs) :
    vs.foldl min v ≤ x := by
  induction vs generalizing v with
  | nil =>
    rcases hx with h | h
    · exact le_of_eq h.symm
    · cases h
  | cons y ys ih =>
    rw [List.foldl_cons]
    rcases hx with h | h
    · exact le_trans (le_trans (foldl_min_init_le ys (min v y))
        (min_le_left v y)) (le_of_eq h.symm)
    · rcases List.mem_cons.mp h with h | h
      · exact le_trans (le_trans (foldl_min_init_le ys (min v y))
          (min_le_right v y)) (le_of_eq h.symm)
      · exact ih (min v y) (Or.inr h)

theorem valMin_mem {l : List ℚ} {v : ℚ} (h : valMin l = some v) : v ∈ l := by
  cases l with
  | nil => simp [valMin] at h
  | cons x xs =>
    simp only [valMin, Option.some.injEq] at h
    rcases foldl_min_mem xs x with h2 | h2
    · rw [← h, h2]; exact List.mem_cons_self x xs
    · rw [← h]; exact List.mem_cons_of_mem x h2

theorem valMin_lb {l : List ℚ} {v : ℚ} (h : valMin l = some v) :
    ∀ x ∈ l, v ≤ x := by
  intro x hx
  cases l with
  | nil => cases hx
  | cons y ys =>
    simp only [valMin, Option.some.injEq] at h
    rw [← h]
    rcases List.mem_cons.mp hx with h2 | h2
    · exact foldl_min_le ys y x (Or.inl h2)
    · exact foldl_min_le ys y x (Or.inr h2)

theorem valMin_isSome {l : List ℚ} (h : l ≠ []) : (valMin l).isSome = true := by
  cases l with
  | nil => exact absurd rfl h
  | cons x xs => simp [valMin]

/-- Model of the per-recession main-window ratio extraction of lines
317-334: after dropping rows where recession i has no merged data
(dropna), keep the value-over-peak ratios at offsets in
-bkwd_qtrs_main .. frwd_qtrs_main. -/
def mainVals (table : List Row) (i : Nat) (bm fm : Nat) : List ℚ :=
  table.filterMap (fun r =>
    match r.cols[i]? with
    | some (some trip) =>
      if -(bm : ℤ) ≤ r.axis ∧ r.axis ≤ (fm : ℤ) then some trip.2.2 else none
    | _ => none)

/-- The list min_main_val_lst of the source: one per-recession minimum
for each of the 15 recessions, none when a recession has no data in the
main window (a NaN in the source). -/
def minMainLst (table : List Row) (bm fm : Nat) : List (Option ℚ) :=
  (List.range 15).map (fun i => valMin (mainVals table i bm fm))

/-- The list max_main_val_lst of the source. -/
def maxMainLst (table : List Row) (bm fm : Nat) : List (Option ℚ) :=
  (List.range 15).map (fun i => valMax (mainVals table i bm fm))

/-- Model of min(min_main_val_lst) on line 349. When some recession has
no data in the main window the source propagates a float NaN with
unspecified comparison behaviour; the model leaves that case undefined
as none. -/
def summaryMin (table : List Row) (bm fm : Nat) : Option ℚ :=
  if (minMainLst table bm fm).all Option.isSome then
    valMin ((minMainLst table bm fm).filterMap id)
  else none

/-- Model of max(max_main_val_lst) on line 350. -/
def summaryMax (table : List Row) (bm fm : Nat) : Option ℚ :=
  if (maxMainLst table bm fm).all Option.isSome then
    valMax ((maxMainLst table bm fm).filterMap id)
  else none

/-- Claim C8: when every recession has at least one populated ratio in
the main display window, the summary computation returns the global
minimum and maximum of the value-over-peak ratio across all 15
recessions restricted to offsets in -backwardMain .. forwardMain,
ignoring missing (null) entries, without failing. -/
theorem C8_summary_range (table : List Row) (bm fm : Nat)
    (hne : ∀ i, i < 15 → mainVals table i bm fm ≠ []) :
    ∃ mn mx, summaryMin table bm fm = some mn ∧
      summaryMax table bm fm = some mx ∧
      (∀ i, i < 15 → ∀ v ∈ mainVals table i bm fm, mn ≤ v ∧ v ≤ mx) ∧
      (∃ i, i < 15 ∧ mn ∈ mainVals table i bm fm) ∧
      (∃ i, i < 15 ∧ mx ∈ mainVals table i bm fm) := by
  have hallmin : (minMainLst table bm fm).all Option.isSome = true := by
    apply List.all_eq_true.mpr
    intro x hx
    rcases List.mem_map.mp hx with ⟨i, hi, hvi⟩
    rw [← hvi]
    exact valMin_isSome (hne i (List.mem_range.mp hi))
  have hallmax : (maxMainLst table bm fm).all Option.isSome = true := by
    apply List.all_eq_true.mpr
    intro x hx
    rcases List.mem_map.mp hx with ⟨i, hi, hvi⟩
    rw [← hvi]
    exact valMax_isSome (hne i (List.mem_range.mp hi))
  have hmem0min : valMin (mainVals table 0 bm fm) ∈ minMainLst table bm fm := by
    apply List.mem_map.mpr
    exact ⟨0, List.mem_range.mpr (by omega), rfl⟩
  have hmem0max : valMax (mainVals table 0 bm fm) ∈ maxMainLst table bm fm := by
    apply List.mem_map.mpr
    exact ⟨0, List.mem_range.mpr (by omega), rfl⟩
  obtain ⟨m0, hm0⟩ := Option.isSome_iff_exists.mp
    (valMin_isSome (hne 0 (by omega)))
  obtain ⟨n0, hn0⟩ := Option.isSome_iff_exists.mp
    (valMax_isSome (hne 0 (by omega)))
  have hfneMin : (minMainLst table bm fm).filterMap id ≠ [] := by
    intro hnil
    have hm : m0 ∈ (minMainLst table bm fm).filterMap id :=
      List.mem_filterMap.mpr ⟨some m0, hm0 ▸ hmem0min, rfl⟩
    rw [hnil] at hm
    cases hm
  have hfneMax : (maxMainLst table bm fm).filterMap id ≠ [] := by
    intro hnil
    have hm : n0 ∈ (maxMainLst table bm fm).filterMap id :=
      List.mem_filterMap.mpr ⟨some n0, hn0 ▸ hmem0max, rfl⟩
    rw [hnil] at hm
    cases hm
  obtain ⟨mn, hmn⟩ := Option.isSome_iff_exists.mp (valMin_isSome hfneMin)
  obtain ⟨mx, hmx⟩ := Option.isSome_iff_exists.mp (valMax_isSome hfneMax)
  refine ⟨mn, mx, ?_, ?_, ?_, ?_, ?_⟩
  · unfold summaryMin
    split
    · exact hmn
    · rename_i hcontra
      exact absurd hallmin hcontra
  · unfold summaryMax
    split
    · exact hmx
    · rename_i hcontra
      exact absurd hallmax hcontra
  · intro i hi v hv
    obtain ⟨mi, hmi⟩ := Option.isSome_iff_exists.mp (valMin_isSome (hne i hi))
    obtain ⟨ni, hni⟩ := Option.isSome_iff_exists.mp (valMax_isSome (hne i hi))
    have h1 : mi ∈ (minMainLst table bm fm).filterMap id := by
      apply List.mem_filterMap.mpr
      refine ⟨some mi, ?_, rfl⟩
      apply List.mem_map.mpr
      exact ⟨i, List.mem_range.mpr hi, hmi⟩
    have h2 : ni ∈ (maxMainLst table bm fm).filterMap id := by
      apply List.mem_filterMap.mpr
      refine ⟨some ni, ?_, rfl⟩
      apply List.mem_map.mpr
      exact ⟨i, List.mem_range.mpr hi, hni⟩
    constructor
    · exact le_trans (valMin_lb hmn mi h1) (valMin_lb hmi v hv)
    · exact le_trans (valMax_ub hni v hv) (valMax_ub hmx ni h2)
  · have hmem := valMin_mem hmn
    rcases List.mem_filterMap.mp hmem with ⟨o, ho, hid⟩
    rcases List.mem_map.mp ho with ⟨i, hi, hoi⟩
    refine ⟨i, List.mem_range.mp hi, ?_⟩
    apply valMin_mem
    rw [hoi]
    exact hid
  · have hmem := valMax_mem hmx
    rcases List.mem_filterMap.mp hmem with ⟨o, ho, hid⟩
    rcases List.mem_map.mp ho with ⟨i, hi, hoi⟩
    refine ⟨i, List.mem_range.mp hi, ?_⟩
    apply valMax_mem
    rw [hoi]
    exact hid

/-- A one-row table at offset 0 with all 15 recession entries populated
with ratio 1. -/
def tab16 : List Row :=
  [⟨0, List.replicate 15 (some (⟨2000, 1, 1⟩, 1, 1))⟩]

/-- Witness for C8: on the fully populated one-row table the summary
minimum and maximum both exist. -/
theorem C8_wit :
    (summaryMin tab16 0 0).isSome = true ∧
    (summaryMax tab16 0 0).isSome = true := by
  obtain ⟨mn, mx, h1, h2, _⟩ := C8_summary_range tab16 0 0 (by decide)
  rw [h1, h2]
  exact ⟨rfl, rfl⟩

/-- Column names of the wide table, as symbolic tokens (only equality of
names matters to the source's drop and rename operations): the axis
column qtrs_frm_peak, per-recession Date{i}, GDPC1{i}, usgdp_dv_pk{i},
the unrenamed right-side columns Date and GDPC1 brought in by a merge,
and the temporary join column qtrs_frm_pk{i}. -/
inductive ColName where
  | qtrs_frm_peak : ColName
  | date (i : Nat) : ColName
  | gdpc1 (i : Nat) : ColName
  | usgdp_dv_pk (i : Nat) : ColName
  | rawDate : ColName
  | rawGDPC1 : ColName
  | qtrs_frm_pk (i : Nat) : ColName
deriving DecidableEq

/-- Schema effect of one merge iteration (lines 234-242): the merge
appends the right side's four columns qtrs_frm_pk{i}, Date, GDPC1,
usgdp_dv_pk{i}; the drop removes every column equal to qtrs_frm_pk{i};
the rename turns every column named Date into Date{i} and every column
named GDPC1 into GDPC1{i}. -/
def mergeHeader (h : List ColName) (i : Nat) : List ColName :=
  ((h ++ [ColName.qtrs_frm_pk i, ColName.rawDate, ColName.rawGDPC1,
      ColName.usgdp_dv_pk i]).filter
    (fun c => !(c == ColName.qtrs_frm_pk i))).map
    (fun c => match c with
      | ColName.rawDate => ColName.date i
      | ColName.rawGDPC1 => ColName.gdpc1 i
      | c => c)

/-- The header of the running table after the first n merge iterations,
starting from the one-column table qtrs_frm_peak of lines 201-203. -/
def headerAfter : Nat → List ColName
  | 0 => [ColName.qtrs_frm_peak]
  | n + 1 => mergeHeader (headerAfter n) n

theorem mergeHeader_adds (h : List ColName) (i : Nat)
    (h1 : ColName.rawDate ∉ h) (h2 : ColName.rawGDPC1 ∉ h)
    (h3 : ColName.qtrs_frm_pk i ∉ h) :
    mergeHeader h i =
      h ++ [ColName.date i, ColName.gdpc1 i, ColName.usgdp_dv_pk i] := by
  unfold mergeHeader
  rw [List.filter_append, List.map_append]
  have hf : h.filter (fun c => !(c == ColName.qtrs_frm_pk i)) = h := by
    apply List.filter_eq_self.mpr
    intro c hc
    simp only [Bool.not_eq_true', beq_eq_false_iff_ne]
    intro heq
    exact h3 (heq ▸ hc)
  rw [hf]
  have hmap : h.map (fun c => match c with
      | ColName.rawDate => ColName.date i
      | ColName.rawGDPC1 => ColName.gdpc1 i
      | c => c) = h := by
    have hcong : ∀ c ∈ h, (fun c => match c with
        | ColName.rawDate => ColName.date i
        | ColName.rawGDPC1 => ColName.gdpc1 i
        | c => c) c = id c := by
      intro c hc
      cases c <;> simp_all
    rw [List.map_congr_left hcong, List.map_id]
  rw [hmap]
  congr 1
  simp

/-- Claim C10: each merge iteration with a collision-free header adds
exactly the three columns Date{i}, GDPC1{i}, usgdp_dv_pk{i} (dropping the
temporary join column qtrs_frm_pk{i}) and leaves the axis column and all
earlier columns unchanged in place; after the 15 iterations the header is
qtrs_frm_peak followed by the 15 column triples, 1 + 3 * 15 = 46 columns
in catalog order; the catalog has 15 windows; and a successful run
returns peak value and peak date lists of length 15 and rows carrying
exactly 15 recession entries. -/
theorem C10_merge_schema :
    (∀ (h : List ColName) (i : Nat), ColName.rawDate ∉ h →
      ColName.rawGDPC1 ∉ h → ColName.qtrs_frm_pk i ∉ h →
      mergeHeader h i =
        h ++ [ColName.date i, ColName.gdpc1 i, ColName.usgdp_dv_pk i]) ∧
    headerAfter 15 = ColName.qtrs_frm_peak ::
      (List.range 15).flatMap
        (fun i => [ColName.date i, ColName.gdpc1 i, ColName.usgdp_dv_pk i]) ∧
    (headerAfter 15).length = 1 + 3 * 15 ∧
    maxdate_rng_lst.length = 15 ∧
    (∀ (series : List Obs) (bkwd frwd : Nat) t pvs pds,
      getUsgdpData series bkwd frwd = .ok (t, pvs, pds) →
      pvs.length = 15 ∧ pds.length = 15 ∧ ∀ r ∈ t, r.cols.length = 15) := by
  refine ⟨mergeHeader_adds, by decide, by decide, rfl, ?_⟩
  intro series bkwd frwd t pvs pds h
  have hlens := buildLoop_ok_list_lens maxdate_rng_lst (initTable bkwd frwd)
    [] [] t pvs pds h
  have hinit : ∀ r ∈ initTable bkwd frwd, r.cols.length = 0 := by
    intro r hr
    unfold initTable at hr
    rcases List.mem_map.mp hr with ⟨a, _, hmk⟩
    rw [← hmk]
    rfl
  have hcols := buildLoop_ok_cols_len maxdate_rng_lst (initTable bkwd frwd)
    [] [] t pvs pds 0 h hinit
  refine ⟨?_, ?_, ?_⟩
  · rw [hlens.1]
    rfl
  · rw [hlens.2]
    rfl
  · intro r hr
    rw [hcols r hr]
    rfl

/-- Witness for C10: the first merge on the initial one-column header
appends exactly Date0, GDPC10, usgdp_dv_pk0, and the fixture run returns
15 peak values. -/
theorem C10_wit :
    mergeHeader [ColName.qtrs_frm_peak] 0 =
      [ColName.qtrs_frm_peak, ColName.date 0, ColName.gdpc1 0,
        ColName.usgdp_dv_pk 0] ∧
    pvsLen (getUsgdpData okFixture 0 0) = some 15 := by
  constructor
  · exact C10_merge_schema.1 [ColName.qtrs_frm_peak] 0 (by decide)
      (by decide) (by decide)
  · rcases hres : getUsgdpData okFixture 0 0 with e | x
    · exfalso
      have hok : resultOk (getUsgdpData okFixture 0 0) = true := by decide
      rw [hres] at hok
      cases hok
    · obtain ⟨t, pvs, pds⟩ := x
      have hl := (C10_merge_schema.2.2.2.2 okFixture 0 0 t pvs pds hres).1
      show some pvs.length = some 15
      rw [hl]
